import Mathlib

/-!
Verification of the VoxaMind client-side voice streaming session
(`microphone.ts`, `websocket.ts`, `audio-player.ts`, `config.ts`) as a
shallow embedding.  JS numbers are modelled over `ℚ`: every numeric value
the verified claims touch is a dyadic rational on which IEEE double
arithmetic is exact (divisions by the power of two 32768 and products by
32767/32768 of 16-bit integers stay far below 2^53), so the rational
model is faithful on those inputs.  `Int16Array` element storage is
modelled by the ECMAScript ToInt16 conversion: truncate toward zero,
then wrap into [-32768, 32767].
-/

namespace VoxaMind

/-! Constants of `CONFIG` in `config.ts`. -/

def SAMPLE_RATE : ℕ := 16000

def CHUNK_SIZE : ℕ := 4096

def SILENCE_THRESHOLD : ℚ := 1 / 100

def SILENCE_DURATION_MS : ℕ := 1200

def RECONNECT_DELAY_MS : ℕ := 2000

def MAX_RECONNECT_ATTEMPTS : ℕ := 5

/-! PCM sample conversions (`MicrophoneCapture.float32ToInt16` in
`microphone.ts` and the decode loop of `AudioPlayer.queueAudio` in
`audio-player.ts`). -/

/-- Truncation toward zero: the integer part ECMAScript takes of a numeric
value before storing it into an `Int16Array`. -/
def truncTowardZero (x : ℚ) : ℤ := if 0 ≤ x then ⌊x⌋ else ⌈x⌉

/-- Wrap of an integer into the signed 16-bit range: the modular half of the
ECMAScript ToInt16 conversion applied on `Int16Array` element stores. -/
def toInt16Wrap (n : ℤ) : ℤ := (n + 32768) % 65536 - 32768

/-- One iteration of the loop of `MicrophoneCapture.float32ToInt16`:
`const s = Math.max(-1, Math.min(1, buffer[i])); out[i] = s < 0 ? s * 0x8000 : s * 0x7fff;`
with the `Int16Array` store modelled by ToInt16. -/
def sampleToInt16 (x : ℚ) : ℤ :=
  toInt16Wrap (truncTowardZero
    (if max (-1) (min 1 x) < 0 then max (-1) (min 1 x) * 32768
     else max (-1) (min 1 x) * 32767))

/-- `MicrophoneCapture.float32ToInt16`: the elementwise loop over the input
buffer, as a map. -/
def float32ToInt16 (buffer : List ℚ) : List ℤ := buffer.map sampleToInt16

/-- Decode loop of `AudioPlayer.queueAudio`: `float32[i] = int16[i] / 32768.0`. -/
def decodePCM (data : List ℤ) : List ℚ := data.map (fun v => (v : ℚ) / 32768)

/-- The per-sample conversion exactly as claim C3 words it: clamp to [-1, 1],
then scale by 32767 when the sample is negative and by 32768 when it is
positive.  Stated for comparison with `sampleToInt16`, which is translated
from the source. -/
def sampleToInt16Claimed (x : ℚ) : ℤ :=
  truncTowardZero
    (if max (-1) (min 1 x) < 0 then max (-1) (min 1 x) * 32767
     else max (-1) (min 1 x) * 32768)

/-- The per-sample conversion as the amended claim words it: clamp to [-1, 1],
then scale by 32768 when the sample is negative and by 32767 when it is
non-negative, truncating toward zero (no wrap is ever needed). -/
def sampleToInt16Amended (x : ℚ) : ℤ :=
  if max (-1) (min 1 x) < 0 then truncTowardZero (max (-1) (min 1 x) * 32768)
  else truncTowardZero (max (-1) (min 1 x) * 32767)

/-! Helper lemmas about the 16-bit range. -/

lemma toInt16Wrap_eq_self {n : ℤ} (h1 : -32768 ≤ n) (h2 : n ≤ 32767) :
    toInt16Wrap n = n := by
  unfold toInt16Wrap
  rw [Int.emod_eq_of_lt (by omega) (by omega)]
  omega

lemma truncTowardZero_intCast (z : ℤ) : truncTowardZero (z : ℚ) = z := by
  unfold truncTowardZero
  split <;> simp

lemma sampleToInt16_neg_one : sampleToInt16 (-1) = -32768 := by
  have h : max (-1 : ℚ) (min 1 (-1 : ℚ)) = -1 := by norm_num [min_def, max_def]
  have h2 : ((-1 : ℚ) * 32768) = ((-32768 : ℤ) : ℚ) := by norm_num
  simp only [sampleToInt16, h]
  rw [if_pos (by norm_num : (-1 : ℚ) < 0), h2, truncTowardZero_intCast]
  decide

lemma sampleToInt16_one : sampleToInt16 1 = 32767 := by
  have h : max (-1 : ℚ) (min 1 (1 : ℚ)) = 1 := by norm_num [min_def, max_def]
  have h2 : ((1 : ℚ) * 32767) = ((32767 : ℤ) : ℚ) := by norm_num
  simp only [sampleToInt16, h]
  rw [if_neg (by norm_num : ¬ (1 : ℚ) < 0), h2, truncTowardZero_intCast]
  decide

lemma sampleToInt16Claimed_neg_one : sampleToInt16Claimed (-1) = -32767 := by
  have h : max (-1 : ℚ) (min 1 (-1 : ℚ)) = -1 := by norm_num [min_def, max_def]
  have h2 : ((-1 : ℚ) * 32767) = ((-32767 : ℤ) : ℚ) := by norm_num
  simp only [sampleToInt16Claimed, h]
  rw [if_pos (by norm_num : (-1 : ℚ) < 0), h2, truncTowardZero_intCast]

lemma clamp_mem {x : ℚ} : -1 ≤ max (-1) (min 1 x) ∧ max (-1) (min 1 x) ≤ 1 :=
  ⟨le_max_left _ _, max_le (by norm_num) (min_le_left _ _)⟩

lemma sampleToInt16_eq_amended (x : ℚ) :
    sampleToInt16 x = sampleToInt16Amended x := by
  obtain ⟨hlo, hhi⟩ := clamp_mem (x := x)
  unfold sampleToInt16 sampleToInt16Amended
  by_cases hneg : max (-1) (min 1 x) < 0
  · simp only [if_pos hneg]
    have harg₁ : (-32768 : ℚ) ≤ max (-1) (min 1 x) * 32768 := by nlinarith
    have harg₂ : max (-1) (min 1 x) * 32768 < 0 := by nlinarith
    have htr : truncTowardZero (max (-1) (min 1 x) * 32768)
        = ⌈max (-1) (min 1 x) * 32768⌉ := by
      unfold truncTowardZero
      rw [if_neg (not_le.mpr harg₂)]
    rw [htr]
    refine toInt16Wrap_eq_self ?_ ?_
    · have : ((-32768 : ℤ) : ℚ) ≤ max (-1) (min 1 x) * 32768 := by
        push_cast; exact harg₁
      exact Int.le_ceil_iff.mpr (by linarith [Int.ceil_le_ceil harg₁])
    · have : ⌈max (-1) (min 1 x) * 32768⌉ ≤ 0 :=
        Int.ceil_le.mpr (by exact_mod_cast le_of_lt harg₂)
      omega
  · simp only [if_neg hneg]
    push_neg at hneg
    have harg₁ : (0 : ℚ) ≤ max (-1) (min 1 x) * 32767 := by nlinarith
    have harg₂ : max (-1) (min 1 x) * 32767 ≤ 32767 := by nlinarith
    have htr : truncTowardZero (max (-1) (min 1 x) * 32767)
        = ⌊max (-1) (min 1 x) * 32767⌋ := by
      unfold truncTowardZero
      rw [if_pos harg₁]
    rw [htr]
    refine toInt16Wrap_eq_self ?_ ?_
    · have : (0 : ℤ) ≤ ⌊max (-1) (min 1 x) * 32767⌋ :=
        Int.le_floor.mpr (by exact_mod_cast harg₁)
      omega
    · have hle : (⌊max (-1) (min 1 x) * 32767⌋ : ℚ) ≤ 32767 :=
        le_trans (Int.floor_le _) harg₂
      exact_mod_cast hle

/-- C3, counterexample.  The claim's scaling (32767 for negative samples,
32768 for positive ones) disagrees with the source at the sample `-1.0`:
`float32ToInt16` yields `-32768` there, while the conversion as the claim
words it yields `-32767`. -/
theorem c3_counterexample :
    float32ToInt16 [(-1 : ℚ)] = [(-32768 : ℤ)] ∧
    List.map sampleToInt16Claimed [(-1 : ℚ)] = [(-32767 : ℤ)] ∧
    ([(-32768 : ℤ)] ≠ [(-32767 : ℤ)]) := by
  refine ⟨?_, ?_, by decide⟩
  · simp [float32ToInt16, sampleToInt16_neg_one]
  · simp [sampleToInt16Claimed_neg_one]

/-- C3, amended: the conversion clamps each sample to [-1, 1] and then scales
it by 32768 if it is negative and by 32767 if it is non-negative, truncating
toward zero; the 16-bit store never wraps. -/
theorem c3_scale_amended (buf : List ℚ) :
    float32ToInt16 buf = buf.map sampleToInt16Amended := by
  unfold float32ToInt16
  exact List.map_congr_left fun x _ => sampleToInt16_eq_amended x

/-- C4: encoding the float sample +1.0 yields 32767, encoding -1.0 yields
-32768, and the playback decoder maps the 16-bit value 16384 to 0.5. -/
theorem c4_roundtrip_values :
    float32ToInt16 [(1 : ℚ)] = [(32767 : ℤ)] ∧
    float32ToInt16 [(-1 : ℚ)] = [(-32768 : ℤ)] ∧
    decodePCM [(16384 : ℤ)] = [(1/2 : ℚ)] := by
  refine ⟨?_, ?_, ?_⟩
  · simp [float32ToInt16, sampleToInt16_one]
  · simp [float32ToInt16, sampleToInt16_neg_one]
  · norm_num [decodePCM]

/-- Re-encoding a decoded Int16 sample: the exact value `sampleToInt16`
produces on `v / 32768` for an in-range 16-bit `v`. -/
lemma sampleToInt16_decode {v : ℤ} (h1 : -32768 ≤ v) (h2 : v ≤ 32767) :
    sampleToInt16 ((v : ℚ) / 32768)
      = if v < 0 then v else ⌊((v : ℚ) * 32767) / 32768⌋ := by
  have h32 : (0 : ℚ) < 32768 := by norm_num
  have hle : ((v : ℚ) / 32768) ≤ 1 := by
    rw [div_le_one h32]
    exact_mod_cast le_trans h2 (by norm_num)
  have hge : (-1 : ℚ) ≤ (v : ℚ) / 32768 := by
    rw [le_div_iff₀ h32]
    have : (-32768 : ℚ) ≤ (v : ℚ) := by exact_mod_cast h1
    linarith
  have hclamp : max (-1) (min 1 ((v : ℚ) / 32768)) = (v : ℚ) / 32768 := by
    rw [min_eq_right hle, max_eq_right hge]
  by_cases hv : v < 0
  · have hs : ((v : ℚ) / 32768) < 0 :=
      div_neg_of_neg_of_pos (by exact_mod_cast hv) h32
    have hmul : ((v : ℚ) / 32768) * 32768 = ((v : ℤ) : ℚ) :=
      div_mul_cancel₀ _ (by norm_num)
    simp only [sampleToInt16, hclamp]
    rw [if_pos hs, hmul, truncTowardZero_intCast, if_pos hv]
    exact toInt16Wrap_eq_self h1 (by omega)
  · push_neg at hv
    have hs : ¬ ((v : ℚ) / 32768) < 0 :=
      not_lt.mpr (div_nonneg (by exact_mod_cast hv) (le_of_lt h32))
    have hmul : ((v : ℚ) / 32768) * 32767 = ((v : ℚ) * 32767) / 32768 := by
      ring
    have harg : (0 : ℚ) ≤ ((v : ℚ) * 32767) / 32768 := by
      apply div_nonneg _ (le_of_lt h32)
      have : (0 : ℚ) ≤ (v : ℚ) := by exact_mod_cast hv
      nlinarith
    simp only [sampleToInt16, hclamp]
    rw [if_neg hs, hmul]
    have htr : truncTowardZero (((v : ℚ) * 32767) / 32768)
        = ⌊((v : ℚ) * 32767) / 32768⌋ := by
      unfold truncTowardZero
      rw [if_pos harg]
    rw [htr, if_neg (not_lt.mpr hv)]
    refine toInt16Wrap_eq_self ?_ ?_
    · have : (0 : ℤ) ≤ ⌊((v : ℚ) * 32767) / 32768⌋ :=
        Int.le_floor.mpr (by exact_mod_cast harg)
      omega
    · have hb : ((v : ℚ) * 32767) / 32768 ≤ 32767 := by
        rw [div_le_iff₀ h32]
        have : (v : ℚ) ≤ 32767 := by exact_mod_cast h2
        nlinarith
      have : (⌊((v : ℚ) * 32767) / 32768⌋ : ℚ) ≤ 32767 :=
        le_trans (Int.floor_le _) hb
      exact_mod_cast this

/-- C10: the playback decoder maps every in-range Int16 value `v` to the
float `v / 32768`; re-encoding that float with `float32ToInt16` gives back
exactly `v` when `v ≤ 0`, and gives `⌊v * 32767 / 32768⌋`, strictly less
than `v`, when `v > 0`. -/
theorem c10_decode_encode (v : ℤ) (h1 : -32768 ≤ v) (h2 : v ≤ 32767) :
    decodePCM [v] = [(v : ℚ) / 32768] ∧
    (v ≤ 0 → float32ToInt16 (decodePCM [v]) = [v]) ∧
    (0 < v → float32ToInt16 (decodePCM [v]) = [⌊((v : ℚ) * 32767) / 32768⌋] ∧
      ⌊((v : ℚ) * 32767) / 32768⌋ < v) := by
  refine ⟨rfl, ?_, ?_⟩
  · intro hv
    show [sampleToInt16 ((v : ℚ) / 32768)] = [v]
    rw [sampleToInt16_decode h1 h2]
    rcases lt_or_eq_of_le hv with hlt | heq
    · rw [if_pos hlt]
    · subst heq
      norm_num
  · intro hv
    constructor
    · show [sampleToInt16 ((v : ℚ) / 32768)] = _
      rw [sampleToInt16_decode h1 h2, if_neg (by omega)]
    · rw [Int.floor_lt]
      rw [div_lt_iff₀ (by norm_num : (0 : ℚ) < 32768)]
      have : (0 : ℚ) < (v : ℚ) := by exact_mod_cast hv
      nlinarith

/-- C10, witness at `v = 100`. -/
theorem c10_decode_encode_witness :
    ((-32768 : ℤ) ≤ 100 ∧ (100 : ℤ) ≤ 32767 ∧ (0 : ℤ) < 100) ∧
    (float32ToInt16 (decodePCM [(100 : ℤ)])
        = [⌊(((100 : ℤ) : ℚ) * 32767) / 32768⌋] ∧
      ⌊(((100 : ℤ) : ℚ) * 32767) / 32768⌋ < 100) :=
  ⟨⟨by decide, by decide, by decide⟩,
    (c10_decode_encode 100 (by decide) (by decide)).2.2 (by decide)⟩

/-! Silence-aware capture (`MicrophoneCapture` in `microphone.ts`).  The
`onaudioprocess` handler, the debounce timer and `flushBuffer` become a step
machine: `timerHeld` models `this.silenceTimer !== null` (the handle is NOT
cleared when the timeout fires, only by `clearTimeout` or `stop`), while
`timerLive` models a scheduled timeout that has neither fired nor been
canceled — only a live timer can fire. -/

structure MicState where
  isRecording : Bool
  timerHeld : Bool
  timerLive : Bool
  buffer : List (List ℚ)
deriving DecidableEq

/-- Sum of squares of a chunk, the accumulator of `calculateRMS`. -/
def sumSq (c : List ℚ) : ℚ := (c.map (fun x => x * x)).sum

/-- The comparison `calculateRMS(chunk) < CONFIG.AUDIO.SILENCE_THRESHOLD`,
i.e. `Math.sqrt(sum / length) < 0.01`, embedded without the square root by
comparing squares (both sides are non-negative, so squaring is faithful);
for an empty chunk JS compares NaN and gets `false`, matched here because
`0 < threshold² · 0` is false. -/
def isSilent (c : List ℚ) : Bool :=
  decide (sumSq c < SILENCE_THRESHOLD ^ 2 * c.length)

/-- The body of `onaudioprocess`: ignore the chunk when not recording,
otherwise push it onto `audioBuffer`, then either schedule the debounce
timer (silent chunk, no handle held) or cancel it (loud chunk). -/
def micProcessChunk (m : MicState) (c : List ℚ) : MicState :=
  if m.isRecording then
    let m1 : MicState := { m with buffer := m.buffer ++ [c] }
    if isSilent c then
      if m1.timerHeld then m1
      else { m1 with timerHeld := true, timerLive := true }
    else
      if m1.timerHeld then { m1 with timerHeld := false, timerLive := false }
      else m1
  else m

/-- `MicrophoneCapture.flushBuffer`: a no-op on an empty buffer; otherwise
the buffer is concatenated in order into one segment, handed to `onSilence`
(the returned `Option`), and reset. -/
def flushBuffer (m : MicState) : MicState × Option (List ℚ) :=
  if m.buffer.isEmpty then (m, none)
  else ({ m with buffer := [] }, some m.buffer.flatten)

/-- Elapse of the silence debounce timeout: only a live (scheduled, unfired,
uncanceled) timer fires; it runs `flushBuffer`.  The handle in
`this.silenceTimer` stays set, as in the source. -/
def micTimerFire (m : MicState) : MicState × Option (List ℚ) :=
  if m.timerLive then flushBuffer { m with timerLive := false }
  else (m, none)

/-- `MicrophoneCapture.stop`: deactivate recording, cancel any pending
timer, final unconditional `flushBuffer` (the audio-graph teardown has no
observable effect in this model). -/
def micStop (m : MicState) : MicState × Option (List ℚ) :=
  flushBuffer { m with isRecording := false, timerHeld := false, timerLive := false }

/-! Protocol session (`VoiceAgentWebSocket` in `websocket.ts`): the
conversation state machine. -/

inductive ConvState
  | idle
  | listening
  | processing
  | speaking
deriving DecidableEq

/-- The primitive occurrences that touch the conversation state: one per
`handleMessage` case, plus the `AudioPlayer` callbacks wired in the
constructor, the `onSilence` capture callback, the unconditional
`setState("listening")` inside `startListening`, and the guarded tail of
`stopListening`.  The full `stopListening` (which first runs the capture
stop and its possible flush) is `stopListening` below. -/
inductive ConvEvent
  | msgBinary (b : List ℤ)
  | msgSessionStart (sid : String)
  | msgTranscript (text : String) (isFinal : Bool)
  | msgResponseText (text : String) (isFinal : Bool)
  | msgResponseAudio (audio : List ℤ) (rate : ℕ)
  | msgResponseAudioEnd
  | msgError (emsg : String)
  | msgPong
  | playbackStarted
  | playbackEnded
  | silenceFlush
  | startListeningSet
  | stopListeningGuard
deriving DecidableEq

/-- Session state: the conversation state, the recorded session id, the
playback-queue entries handed to `AudioPlayer.queueAudio` (raw Int16 data
with the sample rate passed), and the microphone, when one is attached. -/
structure SessionState where
  conv : ConvState
  sessionId : Option String
  queued : List (List ℤ × ℕ)
  mic : Option MicState
deriving DecidableEq

/-- `setState`: the stored state value (the callback fires only on an
actual change, which does not affect the stored value). -/
def setConvState (st : SessionState) (c : ConvState) : SessionState :=
  { st with conv := c }

/-- One step of the session on a primitive event, translated case by case
from `handleMessage` (binary frames go through `handleAudioChunk`, which
calls `queueAudio(data)` with the defaulted sample rate 22050) and from the
callbacks wired in the constructor and `startListening`. -/
def stepSession (st : SessionState) : ConvEvent → SessionState
  | .msgBinary b => { st with queued := st.queued ++ [(b, 22050)] }
  | .msgSessionStart sid => { st with sessionId := some sid }
  | .msgTranscript _ isFinal =>
      if isFinal then setConvState st .processing else st
  | .msgResponseText _ _ => st
  | .msgResponseAudio audio rate => { st with queued := st.queued ++ [(audio, rate)] }
  | .msgResponseAudioEnd => st
  | .msgError _ => setConvState st .idle
  | .msgPong => st
  | .playbackStarted => setConvState st .speaking
  | .playbackEnded => setConvState st .idle
  | .silenceFlush => setConvState st .processing
  | .startListeningSet => setConvState st .listening
  | .stopListeningGuard =>
      if st.conv = .listening then setConvState st .idle else st

/-- `VoiceAgentWebSocket.stopListening`: run `microphone?.stop()` (whose
final flush, if it delivers a segment, invokes `onSilence`, which sets the
state to `processing`), null the microphone, then set the state to `idle`
only if it is still `listening`. -/
def stopListening (st : SessionState) : SessionState :=
  let st1 : SessionState :=
    match st.mic with
    | none => st
    | some m =>
        match (micStop m).2 with
        | some _ => { setConvState st .processing with mic := none }
        | none => { st with mic := none }
  let st2 : SessionState := { st1 with mic := none }
  if st2.conv = .listening then setConvState st2 .idle else st2

/-- The transition function claim C1's amendment describes: final
transcripts, server errors, playback start/end, the silence flush and
`startListening` set the state unconditionally from any state; only the
explicit-stop guard is conditional on the current state; all other
messages leave the state unchanged. -/
def amendedConvTable (s : ConvState) : ConvEvent → ConvState
  | .msgTranscript _ isFinal => if isFinal then .processing else s
  | .msgError _ => .idle
  | .playbackStarted => .speaking
  | .playbackEnded => .idle
  | .silenceFlush => .processing
  | .startListeningSet => .listening
  | .stopListeningGuard => if s = .listening then .idle else s
  | _ => s

/-- C1, counterexample.  The pair (state `idle`, event final `transcript`)
is not listed in the §4.3 transition table, yet processing the event moves
the state to `processing`: the claim's own first example fails. -/
theorem c1_counterexample :
    (stepSession ⟨ConvState.idle, none, [], none⟩
        (ConvEvent.msgTranscript "hi" true)).conv = ConvState.processing ∧
    ConvState.processing ≠ ConvState.idle :=
  ⟨rfl, by decide⟩

/-- C1, amended: the state-bearing events are applied unconditionally (a
final transcript always yields `processing`, a server error always `idle`,
playback start always `speaking`, playback end always `idle`, the silence
flush always `processing`, `startListening` always `listening`); only the
explicit-stop guard checks the current state (`listening` to `idle`,
otherwise unchanged); events outside the table (non-final transcripts,
`session_start`, `response_text`, `response_audio`, `response_audio_end`,
`pong`, binary frames) leave the state unchanged. -/
theorem c1_transitions_amended (st : SessionState) (e : ConvEvent) :
    (stepSession st e).conv = amendedConvTable st.conv e := by
  cases e <;>
    simp only [stepSession, amendedConvTable, setConvState] <;>
    first
      | rfl
      | (split <;> rfl)

/-- C5, counterexample.  With the state `listening` and an active capture
whose buffer holds one chunk, `stopListening()` ends in `processing`, not
`idle`: the final flush fires `onSilence`, which moves the state to
`processing` before the `listening` guard is checked. -/
theorem c5_counterexample :
    (stopListening ⟨ConvState.listening, none, [],
        some ⟨true, false, false, [[0]]⟩⟩).conv = ConvState.processing ∧
    ConvState.processing ≠ ConvState.idle :=
  ⟨rfl, by decide⟩

/-- Whether `microphone?.stop()` inside `stopListening` would deliver a
flushed segment: there is an attached microphone and its buffer is
non-empty. -/
def micFlushDelivers (st : SessionState) : Bool :=
  match st.mic with
  | none => false
  | some m => !m.buffer.isEmpty

/-- C5, amended: `stopListening()` always detaches the capture; if the
state is `listening` and the final flush delivers nothing (no microphone,
or an empty capture buffer) the state afterwards is `idle`; but whenever
the final flush delivers a segment the state afterwards is `processing`. -/
theorem c5_stop_amended (st : SessionState) :
    (stopListening st).mic = none ∧
    (st.conv = ConvState.listening → micFlushDelivers st = false →
      (stopListening st).conv = ConvState.idle) ∧
    (micFlushDelivers st = true →
      (stopListening st).conv = ConvState.processing) := by
  obtain ⟨conv, sid, q, mic⟩ := st
  cases mic with
  | none =>
      refine ⟨?_, ?_, ?_⟩
      · simp only [stopListening]
        split <;> rfl
      · intro hconv _
        simp only [stopListening, micFlushDelivers]
        subst hconv
        rfl
      · intro h
        simp [micFlushDelivers] at h
  | some m =>
      by_cases hb : m.buffer.isEmpty
      · have hflush : (micStop m).2 = none := by
          simp [micStop, flushBuffer, hb]
        refine ⟨?_, ?_, ?_⟩
        · simp only [stopListening, hflush]
          split <;> rfl
        · intro hconv _
          simp only [stopListening, hflush]
          subst hconv
          rfl
        · intro h
          simp [micFlushDelivers, hb] at h
      · have hflush : (micStop m).2 = some (m.buffer.flatten) := by
          simp [micStop, flushBuffer, hb]
        refine ⟨?_, ?_, ?_⟩
        · simp only [stopListening, hflush]
          rfl
        · intro _ hdel
          simp [micFlushDelivers, hb] at hdel
        · intro _
          simp only [stopListening, hflush]
          rfl

/-- C5, witness: from `listening` with an attached microphone whose buffer
is empty, `stopListening()` detaches capture and lands in `idle`. -/
theorem c5_stop_amended_witness :
    (stopListening ⟨ConvState.listening, none, [],
        some ⟨true, false, false, []⟩⟩).mic = none ∧
    (stopListening ⟨ConvState.listening, none, [],
        some ⟨true, false, false, []⟩⟩).conv = ConvState.idle :=
  ⟨(c5_stop_amended _).1, (c5_stop_amended _).2.1 rfl rfl⟩

/-! Claim C9: sample rate of inbound binary frames. -/

/-- The sample rate most recently stated by a control message, if any:
`response_audio` is the only inbound control message carrying a
`sample_rate` field. -/
def lastStatedRate (ms : List ConvEvent) : Option ℕ :=
  ms.foldl
    (fun acc m =>
      match m with
      | .msgResponseAudio _ r => some r
      | _ => acc)
    none

/-- The sample rate claim C9 predicts for a binary frame: the rate stated
by an accompanying control message, defaulting to 22050 only when none
stated one. -/
def claimC9Rate (ms : List ConvEvent) : ℕ := (lastStatedRate ms).getD 22050

/-- C9, counterexample.  After a control message stating sample rate 16000,
a binary frame is still queued at 22050 — `handleAudioChunk` always calls
`queueAudio(data)` with the defaulted rate — while the claim predicts
16000. -/
theorem c9_counterexample :
    (stepSession
        (stepSession ⟨ConvState.idle, none, [], none⟩
          (ConvEvent.msgResponseAudio [] 16000))
        (ConvEvent.msgBinary [5])).queued
      = [([], 16000), ([5], 22050)] ∧
    claimC9Rate [ConvEvent.msgResponseAudio [] 16000] = 16000 ∧
    (22050 : ℕ) ≠ 16000 :=
  ⟨rfl, rfl, by decide⟩

/-- C9, amended: every inbound binary frame is routed to the playback queue
at the fixed default rate 22050 Hz, regardless of any control message;
only a `response_audio` control message itself is queued at its stated
rate. -/
theorem c9_binary_rate_amended (st : SessionState) :
    (∀ b, stepSession st (ConvEvent.msgBinary b)
        = { st with queued := st.queued ++ [(b, 22050)] }) ∧
    (∀ a r, stepSession st (ConvEvent.msgResponseAudio a r)
        = { st with queued := st.queued ++ [(a, r)] }) :=
  ⟨fun _ => rfl, fun _ _ => rfl⟩

/-! Playback queue (`AudioPlayer` in `audio-player.ts`). -/

structure PlayerState where
  queue : List (List ℚ × ℕ)
  isPlaying : Bool
  current : Option (List ℚ × ℕ)
  startCount : ℕ
  endCount : ℕ
deriving DecidableEq

/-- `AudioPlayer.playNext`: an empty queue ends the run (clears `isPlaying`
and fires the playback-ended signal); otherwise shift the head, mark
playing, set `currentSource`, and fire the playback-started signal exactly
when the queue is empty AFTER the shift (the source's
`if (this.queue.length === 0 && this.options.onPlaybackStart)`). -/
def playNext (p : PlayerState) : PlayerState :=
  match p.queue with
  | [] => { p with isPlaying := false, endCount := p.endCount + 1 }
  | b :: rest =>
      let p1 : PlayerState :=
        { p with isPlaying := true, queue := rest, current := some b }
      if rest.isEmpty then { p1 with startCount := p1.startCount + 1 } else p1

/-- `AudioPlayer.queueAudio`: decode the Int16 data to floats, append the
segment, and start a play-run if none is draining the queue. -/
def queueAudio (p : PlayerState) (data : List ℤ) (rate : ℕ) : PlayerState :=
  let p1 : PlayerState := { p with queue := p.queue ++ [(decodePCM data, rate)] }
  if p1.isPlaying then p1 else playNext p1

/-- `source.onended`: clear `currentSource`, then `playNext()`.  Only an
actually playing source ends. -/
def segmentEnded (p : PlayerState) : PlayerState :=
  match p.current with
  | none => p
  | some _ => playNext { p with current := none }

/-- The player as constructed: empty queue, idle, no signals fired yet. -/
def initPlayer : PlayerState := ⟨[], false, none, 0, 0⟩

/-- C2, evaluation at the failing input.  Enqueue segment A into the idle
player (its dequeue fires the started signal once), enqueue segment B while
A plays, then A ends: dequeuing B leaves the queue empty, so the source
fires the started signal a second time although the play-run never ended
(the ended signal has not fired).  The claim's "exactly once per play-run"
fails. -/
theorem c2_double_start_eval :
    (segmentEnded (queueAudio (queueAudio initPlayer [1] 22050)
        [2] 22050)).startCount = 2 ∧
    (segmentEnded (queueAudio (queueAudio initPlayer [1] 22050)
        [2] 22050)).endCount = 0 :=
  ⟨rfl, rfl⟩

/-! Connection sub-protocol (`connect`, `attemptReconnect`, `disconnect`
in `websocket.ts`). -/

structure ConnState where
  pingActive : Bool
  reconnectAttempts : ℕ
  pendingReconnects : ℕ
  scheduledDelays : List ℕ
  connectCalls : ℕ
deriving DecidableEq

/-- The `onclose` handler: `stopPing()`, fire "disconnected", then
`attemptReconnect()` — nothing when the budget is exhausted, otherwise
increment the attempt counter and schedule a retry of `connect()` after
`RECONNECT_DELAY_MS`. -/
def handleClose (s : ConnState) : ConnState :=
  let s1 : ConnState := { s with pingActive := false }
  if s1.reconnectAttempts ≥ MAX_RECONNECT_ATTEMPTS then s1
  else
    { s1 with
      reconnectAttempts := s1.reconnectAttempts + 1,
      pendingReconnects := s1.pendingReconnects + 1,
      scheduledDelays := s1.scheduledDelays ++ [RECONNECT_DELAY_MS] }

/-- Elapse of a scheduled reconnect delay: the pending timer fires and
`connect()` is invoked (in the exhaustion scenario the new socket closes
again at once, delivering a further close event). -/
def reconnectTimerFires (s : ConnState) : ConnState :=
  if s.pendingReconnects = 0 then s
  else
    { s with
      pendingReconnects := s.pendingReconnects - 1,
      connectCalls := s.connectCalls + 1 }

/-- `VoiceAgentWebSocket.disconnect`: `stopPing()`; stopping capture and
nulling `this.ws` do not touch the reconnect machinery, and `ws.close()`
makes the platform deliver a close event to the still-attached `onclose`
handler afterwards — modelled by a subsequent `handleClose`. -/
def disconnectCall (s : ConnState) : ConnState := { s with pingActive := false }

/-- A connected session right after a successful open: heartbeat running,
reconnect counter reset, nothing scheduled. -/
def initConn : ConnState := ⟨true, 0, 0, [], 0⟩

/-- C6, evaluation at the failing input: `disconnect()` on a connected
session with a fresh reconnect budget.  The close event produced by
`ws.close()` runs `attemptReconnect`, leaving one reconnect timer pending
at the configured delay, and when that delay elapses a further `connect()`
is made — contradicting the claim that no reconnect timer remains and no
further connect attempt occurs. -/
theorem c6_disconnect_schedules_reconnect :
    (handleClose (disconnectCall initConn)).pendingReconnects = 1 ∧
    (handleClose (disconnectCall initConn)).scheduledDelays
      = [RECONNECT_DELAY_MS] ∧
    (reconnectTimerFires (handleClose (disconnectCall initConn))).connectCalls
      = 1 :=
  ⟨rfl, rfl, rfl⟩

/-- The reconnect-exhaustion scenario of claim C7: state after `n` close
events, each scheduled reconnect timer firing (and its `connect()` closing
again immediately) before the next close event arrives. -/
def c7AfterCloses : ℕ → ConnState
  | 0 => initConn
  | n + 1 => handleClose (reconnectTimerFires (c7AfterCloses n))

/-- C7: with max attempts 5 and every reconnect closing again immediately,
the first 5 close events each schedule one reconnect at the configured
delay (5 in all, the counter reaching the budget), the 6th close schedules
no further attempt, and exactly 5 `connect()` retries were made with no
timer left pending. -/
theorem c7_reconnect_budget :
    (c7AfterCloses 5).scheduledDelays = List.replicate 5 RECONNECT_DELAY_MS ∧
    (c7AfterCloses 5).reconnectAttempts = MAX_RECONNECT_ATTEMPTS ∧
    (c7AfterCloses 6).scheduledDelays = List.replicate 5 RECONNECT_DELAY_MS ∧
    (c7AfterCloses 6).pendingReconnects = 0 ∧
    (c7AfterCloses 6).connectCalls = 5 :=
  ⟨rfl, rfl, rfl, rfl, rfl⟩

/-! Claim C8: the silence debounce flush. -/

lemma micProcessChunk_silent_foldl (cs : List (List ℚ)) :
    ∀ m : MicState, m.isRecording = true → m.timerHeld = m.timerLive →
      (∀ c ∈ cs, isSilent c = true) →
      (cs.foldl micProcessChunk m).isRecording = true ∧
      (cs.foldl micProcessChunk m).buffer = m.buffer ++ cs ∧
      (cs.foldl micProcessChunk m).timerLive = (m.timerLive || !cs.isEmpty) ∧
      (cs.foldl micProcessChunk m).timerHeld = (m.timerHeld || !cs.isEmpty) := by
  induction cs with
  | nil =>
      intro m hrec hsync _
      refine ⟨hrec, by simp, by simp, by simp⟩
  | cons c cs ih =>
      intro m hrec hsync hsil
      have hc : isSilent c = true := hsil c (List.mem_cons_self c cs)
      have hstep : micProcessChunk m c
          = { m with buffer := m.buffer ++ [c], timerHeld := true,
                     timerLive := true } := by
        simp only [micProcessChunk, hrec, if_true, hc]
        by_cases hh : m.timerHeld
        · have hl : m.timerLive = true := by rw [← hsync]; exact hh
          simp [hh, hl]
        · simp [hh]
      have := ih (micProcessChunk m c)
        (by rw [hstep]; exact hrec) (by rw [hstep])
        (fun d hd => hsil d (List.mem_cons_of_mem c hd))
      rcases this with ⟨h1, h2, h3, h4⟩
      refine ⟨by simpa using h1, ?_, ?_, ?_⟩
      · rw [List.foldl_cons, h2, hstep]
        simp
      · rw [List.foldl_cons, h3, hstep]
        simp
      · rw [List.foldl_cons, h4, hstep]
        simp

/-- C8: feeding any non-empty run of below-threshold chunks `cs` into a
capture with no timer held (buffer contents `B` accumulated since the last
flush), the debounce timer ends up scheduled and live; chunk processing
itself never delivers a segment (`micProcessChunk` yields no segment by
construction), and the single timer elapse delivers exactly one flushed
segment — the in-order concatenation of everything buffered since the last
flush — and resets the buffer; a flush with an empty buffer delivers
nothing and is a no-op on the buffer. -/
theorem c8_silence_flush :
    (∀ B cs : List (List ℚ), cs ≠ [] → (∀ c ∈ cs, isSilent c = true) →
      (cs.foldl micProcessChunk (MicState.mk true false false B)).timerLive
        = true ∧
      (micTimerFire
          (cs.foldl micProcessChunk (MicState.mk true false false B))).2
        = some (B ++ cs).flatten ∧
      (micTimerFire
          (cs.foldl micProcessChunk (MicState.mk true false false B))).1.buffer
        = []) ∧
    (∀ m : MicState, m.buffer = [] →
      (micTimerFire m).2 = none ∧ (micTimerFire m).1.buffer = []) := by
  constructor
  · intro B cs hne hsil
    obtain ⟨h1, h2, h3, h4⟩ :=
      micProcessChunk_silent_foldl cs (MicState.mk true false false B)
        rfl rfl hsil
    have hlive : (cs.foldl micProcessChunk
        (MicState.mk true false false B)).timerLive = true := by
      rw [h3]
      simp [List.isEmpty_iff, hne]
    have hbufne : ¬ (B ++ cs).isEmpty := by
      simp [List.isEmpty_iff, hne]
    refine ⟨hlive, ?_, ?_⟩
    · simp only [micTimerFire, hlive, if_true, flushBuffer, h2]
      simp [List.isEmpty_iff, hne]
    · simp only [micTimerFire, hlive, if_true, flushBuffer, h2]
      simp [List.isEmpty_iff, hne]
  · intro m hbuf
    by_cases hl : m.timerLive
    · simp [micTimerFire, hl, flushBuffer, hbuf]
    · simp [micTimerFire, hl, hbuf]

/-- C8, witness: the single silent chunk `[0]` on an empty buffer schedules
the debounce, and its elapse delivers the one-chunk segment. -/
theorem c8_silence_flush_witness :
    ([[(0 : ℚ)]] ≠ ([] : List (List ℚ))) ∧
    (∀ c ∈ [[(0 : ℚ)]], isSilent c = true) ∧
    (micTimerFire
        (List.foldl micProcessChunk (MicState.mk true false false [])
          [[(0 : ℚ)]])).2
      = some (([] : List (List ℚ)) ++ [[(0 : ℚ)]]).flatten := by
  have hsil : ∀ c ∈ [[(0 : ℚ)]], isSilent c = true := by
    intro c hc
    simp only [List.mem_singleton] at hc
    subst hc
    simp only [isSilent, sumSq, SILENCE_THRESHOLD, decide_eq_true_eq]
    norm_num
  have hne : [[(0 : ℚ)]] ≠ ([] : List (List ℚ)) := by simp
  exact ⟨hne, hsil, (c8_silence_flush.1 [] [[(0 : ℚ)]] hne hsil).2.1⟩

end VoxaMind
